import Mathlib

/-!
Shallow embedding of `asaphus_coding_challenge.cpp`, a two-player box game.

C++ `double` arithmetic is modelled by exact rational arithmetic (`ℚ`);
all token weights are non-negative integers (`uint32_t` in the source), so
the arithmetic appearing in the concrete test traces is exact.

C++ `std::list` iterator movement that would run past `begin()` (undefined
behaviour in the source, at `std::advance(insertion_point, -3)` on a list
with fewer than three elements) is modelled by an explicit out-of-range
error branch: `Box.absorbWeight` returns `Option Box`, `none` on that path.
-/

set_option maxRecDepth 4000

inductive BoxType where
  | GREEN : BoxType
  | BLUE : BoxType
deriving DecidableEq

/-- State of a box: `weight_`, `score_`, `absorbed_weights_` (the
`std::list<double>` history, in list order), and `type_`, mirroring the
fields of the C++ `Box` class with their default member initializers. -/
structure Box where
  weight_ : ℚ
  score_ : ℚ := 0
  absorbed_weights_ : List ℚ := []
  type_ : BoxType := BoxType.GREEN
deriving DecidableEq

namespace Box

/-- `Box::Box(double initial_weight)`. -/
def mkBox (initial_weight : ℚ) : Box := { weight_ := initial_weight }

/-- `Box::makeGreenBox`: `return std::make_unique<Box>(initial_weight);`. -/
def makeGreenBox (initial_weight : ℚ) : Box := mkBox initial_weight

/-- `Box::makeBlueBox`: `return std::make_unique<Box>(initial_weight);`. -/
def makeBlueBox (initial_weight : ℚ) : Box := mkBox initial_weight

/-- `Box::getScore`. -/
def getScore (b : Box) : ℚ := b.score_

/-- `Box::getWeight`. -/
def getWeight (b : Box) : ℚ := b.weight_

/-- `Box::getBoxType`. -/
def getBoxType (b : Box) : BoxType := b.type_

/-- `Box::setBoxType`: prints a warning when `weight_ > 0.3` (I/O, not
modelled) and sets `type_ = BLUE` whenever `weight_ > 0.1`. -/
def setBoxType (b : Box) : Box :=
  if b.weight_ > 1/10 then { b with type_ := BoxType.BLUE } else b

/-- `std::list::insert(it, w)` where `it` points at index `n`:
inserts `w` before position `n`. -/
def listInsertAt (n : Nat) (w : ℚ) (l : List ℚ) : List ℚ :=
  l.take n ++ w :: l.drop n

/-- The score assignment of the blue branch, read off the updated list:
`(front + back) * (front + back + 1) / 2 + back`. -/
def blueScore (l : List ℚ) : ℚ :=
  (l.headD 0 + l.getLastD 0) * (l.headD 0 + l.getLastD 0 + 1) / 2 + l.getLastD 0

/-- The `mean` computed by the green branch of `Box::absorbWeight` on the
updated history: mean of the last three entries when the history has at
least three, otherwise mean of all entries. -/
def greenMean (hist : List ℚ) : ℚ :=
  if 3 ≤ hist.length then (hist.drop (hist.length - 3)).sum / 3
  else hist.sum / (hist.length : ℚ)

/-- The updated history of the blue branch of `Box::absorbWeight`:
push front when `front > w`, push back when `back < w`, otherwise insert
before the iterator `end()` stepped back three positions — which is out of
bounds (`none`) when the list has fewer than three elements. -/
def blueInsert (w : ℚ) : List ℚ → Option (List ℚ)
  | [] => some [w]
  | f :: rest =>
    if f > w then some (w :: f :: rest)
    else if (f :: rest).getLastD 0 < w then some (f :: rest ++ [w])
    else if 3 ≤ (f :: rest).length then
      some (listInsertAt ((f :: rest).length - 3) w (f :: rest))
    else none

/-- `Box::absorbWeight(double weight)`. Returns `none` exactly on the
out-of-range iterator movement of the blue branch. -/
def absorbWeight (b : Box) (w : ℚ) : Option Box :=
  match b.type_ with
  | BoxType.GREEN =>
    let hist := b.absorbed_weights_ ++ [w]
    some { b with absorbed_weights_ := hist,
                  score_ := (greenMean hist) ^ 2,
                  weight_ := b.weight_ + w }
  | BoxType.BLUE =>
    match blueInsert w b.absorbed_weights_ with
    | none => none
    | some hist =>
      some { b with absorbed_weights_ := hist,
                    score_ := blueScore hist,
                    weight_ := b.weight_ + w }

/-- Absorb a whole sequence of weights, one `absorbWeight` call each. -/
def absorbSeq (b : Box) : List ℚ → Option Box
  | [] => some b
  | v :: vs =>
    match absorbWeight b v with
    | none => none
    | some b2 => absorbSeq b2 vs

/-- The scores observed by `getScore()` after each successive
`absorbWeight` call. -/
def scoreTrace (b : Box) : List ℚ → Option (List ℚ)
  | [] => some []
  | v :: vs =>
    match absorbWeight b v with
    | none => none
    | some b2 =>
      match scoreTrace b2 vs with
      | none => none
      | some t => some (b2.score_ :: t)

end Box

/-- Tail of `std::min_element` over the weights: carries the index and
weight of the best element so far and the index of the next element;
updates on strict `<`, exactly the comparator `*a < *b` of the source. -/
def minElemGo : List ℚ → Nat → ℚ → Nat → Nat × ℚ
  | [], bi, bw, _ => (bi, bw)
  | w :: ws, bi, bw, i =>
    if w < bw then minElemGo ws i w (i + 1) else minElemGo ws bi bw (i + 1)

/-- `std::min_element` over a list of weights: index and weight of the
first element no later element is strictly smaller than. -/
def minElement : List ℚ → Nat × ℚ
  | [] => (0, 0)
  | w :: ws => minElemGo ws 0 w 1

/-- `Player`: only its accumulated `score_`. -/
structure Player where
  score_ : ℚ := 0
deriving DecidableEq

/-- `Player::takeTurn`: select the minimum-weight box (first occurrence on
ties, as `std::min_element`), let it absorb the token, add its score to the
player. `none` propagates the out-of-range fault of `absorbWeight`. -/
def takeTurn (p : Player) (input_weight : ℕ) (boxes : List Box) :
    Option (Player × List Box) :=
  let i := (minElement (boxes.map Box.weight_)).1
  match boxes.get? i with
  | none => none
  | some b =>
    match b.absorbWeight (input_weight : ℚ) with
    | none => none
    | some b2 => some ({ score_ := p.score_ + b2.getScore }, boxes.set i b2)

/-- The four boxes of `play`, after the `setBoxType()` loop. -/
def initialBoxes : List Box :=
  [Box.makeGreenBox 0, Box.makeGreenBox (1/10),
   Box.makeBlueBox (2/10), Box.makeBlueBox (3/10)].map Box.setBoxType

/-- The turn loop of `play`: player A acts on even-indexed tokens,
player B on odd-indexed ones. -/
def playLoop : List ℕ → Bool → Player → Player → List Box → Option (ℚ × ℚ)
  | [], _, pA, pB, _ => some (pA.score_, pB.score_)
  | w :: ws, is_player_A_turn, pA, pB, boxes =>
    if is_player_A_turn then
      match takeTurn pA w boxes with
      | none => none
      | some (pA2, boxes2) => playLoop ws false pA2 pB boxes2
    else
      match takeTurn pB w boxes with
      | none => none
      | some (pB2, boxes2) => playLoop ws true pA pB2 boxes2

/-- `play(const std::vector<uint32_t>&)`: returns the final pair
`(player A score, player B score)`, or `none` on the out-of-range fault. -/
def play (input_weights : List ℕ) : Option (ℚ × ℚ) :=
  playLoop input_weights true {} {} initialBoxes

/-- Helper: the sum of the last `k` elements of a list equals the sum of
the first `k` elements of its reverse. -/
theorem sum_reverse_take (l : List ℚ) (k : ℕ) (hk : k ≤ l.length) :
    (l.reverse.take k).sum = (l.drop (l.length - k)).sum := by
  have hsplit : l.reverse = (l.drop (l.length - k)).reverse ++ (l.take (l.length - k)).reverse := by
    rw [← List.reverse_append, List.take_append_drop]
  have hlen : (l.drop (l.length - k)).reverse.length = k := by
    rw [List.length_reverse, List.length_drop]
    omega
  rw [hsplit, List.take_left' hlen, List.sum_reverse]

/-- Helper: on a non-empty history, the `mean` of the green branch is the
mean of the most recently absorbed up-to-three values. -/
theorem greenMean_eq_recent_mean (l : List ℚ) :
    Box.greenMean l = (l.reverse.take 3).sum / ((min 3 l.length : ℕ) : ℚ) := by
  unfold Box.greenMean
  by_cases h3 : 3 ≤ l.length
  · rw [if_pos h3, sum_reverse_take l 3 h3]
    have hmin : min 3 l.length = 3 := by omega
    rw [hmin]
    norm_num
  · rw [if_neg h3]
    have hlen : l.reverse.length ≤ 3 := by
      rw [List.length_reverse]
      omega
    have hmin : min 3 l.length = l.length := by omega
    rw [List.take_of_length_le hlen, List.sum_reverse, hmin]

/-- C1: for the input sequence `[1,1,2,3]`, `play` returns `(13.0, 25.0)`,
and for `[1,1,2,3,5,8,13,21]` it returns `(155.0, 366.25)` (both final
pairs are `(player A score, player B score)`). -/
theorem play_fibonacci_final_scores :
    play [1, 1, 2, 3] = some (13, 25) ∧
    play [1, 1, 2, 3, 5, 8, 13, 21] = some (155, 1465/4) := by
  with_unfolding_all decide

/-- C3: a blue box with initial weight 0.2 absorbing 2, 1, 4, 3 scores
12, 8, 19, 32 after the successive absorptions. -/
theorem blue_box_scores_2143 :
    Box.scoreTrace (Box.setBoxType (Box.makeBlueBox (2/10))) [2, 1, 4, 3]
      = some [12, 8, 19, 32] := by
  with_unfolding_all decide

/-- C2: evaluation of the code at the failing input. A blue box with
initial weight 0.2 absorbing 1, 2, 4, 3 is left with history `[3, 1, 2, 4]`:
its first element is 3 although the minimum value absorbed so far is 1
(the fourth absorption inserts the token before `end() - 3`, which is
`begin()` on a three-element list). The score becomes
`pairing(3, 4) = 32`, not `pairing(min, max) = pairing(1, 4) = 19`,
contradicting both the claimed invariant and the header comment of the
source (score of the smallest and largest absorbed weight). -/
theorem blue_front_not_running_min :
    (Box.absorbSeq (Box.setBoxType (Box.makeBlueBox (2/10))) [1, 2, 4, 3]).map
        Box.absorbed_weights_ = some [3, 1, 2, 4] ∧
    (Box.absorbSeq (Box.setBoxType (Box.makeBlueBox (2/10))) [1, 2, 4, 3]).map
        Box.getScore = some 32 := by
  with_unfolding_all decide

/-- C4: evaluation of the code at the failing input. `play [1, 1, 0, 0]`
reaches the out-of-range iterator movement: on the fourth token the
minimum-weight box is the blue box with history `[0]` and weight 0.2, and
token 0 falls into the middle-insertion branch, which steps the end
iterator back three positions in a one-element list. -/
theorem play_1100_reaches_out_of_range :
    play [1, 1, 0, 0] = none ∧ Box.blueInsert 0 [0] = none := by
  with_unfolding_all decide

/-- C5: evaluation of the code at the failing input. The box kind is not
fixed at construction: `makeBlueBox(0.2)` constructs a box of kind GREEN,
and the later `setBoxType()` operation changes its kind to BLUE. -/
theorem setBoxType_changes_kind :
    (Box.makeBlueBox (2/10)).getBoxType = BoxType.GREEN ∧
    ((Box.makeBlueBox (2/10)).setBoxType).getBoxType = BoxType.BLUE := by
  with_unfolding_all decide

/-- C9 counterexample: the claim quantifies over every box and every token
value, but for a fresh green box and token value 1 the score after one
absorption equals the score after two absorptions of the same value
(both are 1). -/
theorem absorb_same_score_fresh_green :
    (Box.absorbSeq (Box.makeGreenBox 0) [1]).map Box.getScore =
      (Box.absorbSeq (Box.makeGreenBox 0) [1, 1]).map Box.getScore := by
  with_unfolding_all decide

/-- C9 amended: absorb is not idempotent in general — there exist a box
and a token value for which absorbing the value twice in succession yields
a different score than absorbing it once: a green box that has already
absorbed 1, with token value 2, scores 9/4 after one absorption and 25/9
after two. -/
theorem absorb_not_idempotent_in_general :
    (Box.absorbSeq (Box.makeGreenBox 0) [1, 2]).map Box.getScore ≠
      (Box.absorbSeq (Box.makeGreenBox 0) [1, 2, 2]).map Box.getScore := by
  with_unfolding_all decide

/-- C6: a green box with initial weight 0.0 absorbing 1, 2, 3, 4 scores
1.0, 2.25, 4.0, 9.0 after the successive absorptions, and in general the
score of a green box after an absorption is the square of the mean of the
most recently absorbed up-to-three values. -/
theorem green_box_scores_mean_square :
    Box.scoreTrace (Box.setBoxType (Box.makeGreenBox 0)) [1, 2, 3, 4]
        = some [1, 9/4, 4, 9] ∧
    ∀ (b : Box) (v : ℚ), b.type_ = BoxType.GREEN →
      (b.absorbWeight v).map Box.getScore =
        some ((((b.absorbed_weights_ ++ [v]).reverse.take 3).sum /
          ((min 3 (b.absorbed_weights_ ++ [v]).length : ℕ) : ℚ)) ^ 2) := by
  constructor
  · with_unfolding_all decide
  · intro b v hb
    unfold Box.absorbWeight
    rw [hb]
    dsimp only
    rw [Option.map_some']
    simp only [Box.getScore]
    rw [greenMean_eq_recent_mean]

/-- C6 witness: the general half of `green_box_scores_mean_square`
instantiated at a fresh green box of initial weight 0 and token value 5. -/
theorem green_box_scores_mean_square_w :
    (Box.makeGreenBox 0).type_ = BoxType.GREEN ∧
    ((Box.makeGreenBox 0).absorbWeight 5).map Box.getScore =
      some (((((Box.makeGreenBox 0).absorbed_weights_ ++ [5]).reverse.take 3).sum /
        ((min 3 ((Box.makeGreenBox 0).absorbed_weights_ ++ [5]).length : ℕ) : ℚ)) ^ 2) :=
  ⟨rfl, green_box_scores_mean_square.2 (Box.makeGreenBox 0) 5 rfl⟩

/-- Helper: characterization of the `std::min_element` fold. Starting from
best index `bi` with best weight `bw` at position `i`, the fold returns a
weight that is minimal among `bw` and all remaining weights, and the result
is either the unchanged start pair or the position of the first remaining
weight achieving a strict improvement. -/
theorem minElemGo_spec (ws : List ℚ) : ∀ (bi i : ℕ) (bw : ℚ),
    ((minElemGo ws bi bw i).2 ≤ bw ∧ ∀ x ∈ ws, (minElemGo ws bi bw i).2 ≤ x) ∧
    (((minElemGo ws bi bw i).1 = bi ∧ (minElemGo ws bi bw i).2 = bw) ∨
      ∃ k, k < ws.length ∧ (minElemGo ws bi bw i).1 = i + k ∧
        (minElemGo ws bi bw i).2 = ws.getD k 0 ∧ (minElemGo ws bi bw i).2 < bw ∧
        ∀ j, j < k → (minElemGo ws bi bw i).2 < ws.getD j 0) := by
  induction ws with
  | nil =>
    intro bi i bw
    simp [minElemGo]
  | cons w ws ih =>
    intro bi i bw
    by_cases hcmp : w < bw
    · have hgo : minElemGo (w :: ws) bi bw i = minElemGo ws i w (i + 1) := by
        simp [minElemGo, hcmp]
      rw [hgo]
      obtain ⟨⟨hle, hall⟩, hcases⟩ := ih i (i + 1) w
      refine ⟨⟨le_trans hle (le_of_lt hcmp), ?_⟩, ?_⟩
      · intro x hx
        rcases List.mem_cons.mp hx with hx | hx
        · subst hx
          exact hle
        · exact hall x hx
      · right
        rcases hcases with ⟨h1, h2⟩ | ⟨k, hk, h1, h2, h3, h4⟩
        · refine ⟨0, by simp, by omega, by simpa using h2, by rw [h2]; exact hcmp, ?_⟩
          intro j hj
          omega
        · refine ⟨k + 1, by simp; omega, by omega, by simpa using h2,
            lt_trans h3 hcmp, ?_⟩
          intro j hj
          cases j with
          | zero => simpa using h3
          | succ j2 => simpa using h4 j2 (by omega)
    · have hgo : minElemGo (w :: ws) bi bw i = minElemGo ws bi bw (i + 1) := by
        simp [minElemGo, hcmp]
      rw [hgo]
      obtain ⟨⟨hle, hall⟩, hcases⟩ := ih bi (i + 1) bw
      have hbww : bw ≤ w := le_of_not_lt hcmp
      refine ⟨⟨hle, ?_⟩, ?_⟩
      · intro x hx
        rcases List.mem_cons.mp hx with hx | hx
        · subst hx
          exact le_trans hle hbww
        · exact hall x hx
      · rcases hcases with ⟨h1, h2⟩ | ⟨k, hk, h1, h2, h3, h4⟩
        · exact Or.inl ⟨h1, h2⟩
        · right
          refine ⟨k + 1, by simp; omega, by omega, by simpa using h2, h3, ?_⟩
          intro j hj
          cases j with
          | zero => simpa using lt_of_lt_of_le h3 hbww
          | succ j2 => simpa using h4 j2 (by omega)

/-- Helper: on a non-empty weight list, `minElement` returns an in-bounds
index, the weight stored at that index, that weight is a minimum of the
whole list, and every earlier index holds a strictly larger weight. -/
theorem minElement_spec (ws : List ℚ) (h : ws ≠ []) :
    (minElement ws).1 < ws.length ∧
    ws.getD (minElement ws).1 0 = (minElement ws).2 ∧
    (∀ x ∈ ws, (minElement ws).2 ≤ x) ∧
    ∀ j, j < (minElement ws).1 → (minElement ws).2 < ws.getD j 0 := by
  match ws with
  | [] => exact absurd rfl h
  | w :: ws =>
    have hm : minElement (w :: ws) = minElemGo ws 0 w 1 := rfl
    rw [hm]
    obtain ⟨⟨hle, hall⟩, hcases⟩ := minElemGo_spec ws 0 1 w
    rcases hcases with ⟨h1, h2⟩ | ⟨k, hk, h1, h2, h3, h4⟩
    · refine ⟨by simp [h1], by simp [h1, h2], ?_, ?_⟩
      · intro x hx
        rcases List.mem_cons.mp hx with hx | hx
        · subst hx
          exact hle
        · exact hall x hx
      · intro j hj
        rw [h1] at hj
        omega
    · refine ⟨by simp [h1]; omega, ?_, ?_, ?_⟩
      · rw [h1]
        have hidx : 1 + k = k + 1 := by omega
        rw [hidx]
        simpa using h2.symm
      · intro x hx
        rcases List.mem_cons.mp hx with hx | hx
        · subst hx
          exact hle
        · exact hall x hx
      · intro j hj
        rw [h1] at hj
        cases j with
        | zero => simpa using h3
        | succ j2 => simpa using h4 j2 (by omega)

/-- Helper: reading the weight list of a box list at an index. -/
theorem getD_map_weight (boxes : List Box) (j : ℕ) :
    (boxes.map Box.weight_).getD j 0 = (boxes.getD j (Box.mkBox 0)).getWeight := by
  induction boxes generalizing j with
  | nil => simp [Box.getWeight, Box.mkBox]
  | cons b bs ih =>
    cases j with
    | zero => simp [Box.getWeight]
    | succ j2 => simpa using ih j2

/-- C7: `takeTurn` operates on the box at index
`(minElement (boxes.map weight_)).1`: that index is in bounds, the box
there has the selected weight, its weight is less than or equal to the
current weight of every box, every earlier box in construction order is
strictly heavier (so on ties the first minimal box wins), and `takeTurn`
absorbs the token into exactly that box. -/
theorem takeTurn_picks_first_min_weight_box (boxes : List Box) (h : boxes ≠ []) :
    (minElement (boxes.map Box.weight_)).1 < boxes.length ∧
    (boxes.getD (minElement (boxes.map Box.weight_)).1 (Box.mkBox 0)).getWeight
      = (minElement (boxes.map Box.weight_)).2 ∧
    (∀ b ∈ boxes, (minElement (boxes.map Box.weight_)).2 ≤ b.getWeight) ∧
    (∀ j, j < (minElement (boxes.map Box.weight_)).1 →
      (minElement (boxes.map Box.weight_)).2
        < (boxes.getD j (Box.mkBox 0)).getWeight) ∧
    ∀ (p : Player) (w : ℕ), takeTurn p w boxes =
      match (boxes.getD (minElement (boxes.map Box.weight_)).1
          (Box.mkBox 0)).absorbWeight (w : ℚ) with
      | none => none
      | some b2 => some ({ score_ := p.score_ + b2.getScore },
          boxes.set (minElement (boxes.map Box.weight_)).1 b2) := by
  have hmap : boxes.map Box.weight_ ≠ [] := by simpa using h
  obtain ⟨hlt, hget, hall, hfirst⟩ := minElement_spec (boxes.map Box.weight_) hmap
  rw [List.length_map] at hlt
  refine ⟨hlt, ?_, ?_, ?_, ?_⟩
  · rw [← getD_map_weight]
    exact hget
  · intro b hb
    exact hall b.weight_ (List.mem_map_of_mem Box.weight_ hb)
  · intro j hj
    rw [← getD_map_weight]
    exact hfirst j hj
  · intro p w
    unfold takeTurn
    have hsome : boxes.get? (minElement (boxes.map Box.weight_)).1
        = some (boxes.getD (minElement (boxes.map Box.weight_)).1 (Box.mkBox 0)) := by
      rw [List.getD_eq_getElem _ _ hlt, List.get?_eq_getElem?,
        List.getElem?_eq_getElem hlt]
    simp only [hsome]

/-- C7 witness: the theorem applied to the two-box list with weights 1
and 0, where the second box is the unique minimum. -/
theorem takeTurn_picks_first_min_weight_box_w :
    ([Box.mkBox 1, Box.mkBox 0] : List Box) ≠ [] ∧
    ((minElement ([Box.mkBox 1, Box.mkBox 0].map Box.weight_)).1
        < ([Box.mkBox 1, Box.mkBox 0] : List Box).length ∧
      (([Box.mkBox 1, Box.mkBox 0] : List Box).getD
          (minElement ([Box.mkBox 1, Box.mkBox 0].map Box.weight_)).1
          (Box.mkBox 0)).getWeight
        = (minElement ([Box.mkBox 1, Box.mkBox 0].map Box.weight_)).2 ∧
      (∀ b ∈ ([Box.mkBox 1, Box.mkBox 0] : List Box),
        (minElement ([Box.mkBox 1, Box.mkBox 0].map Box.weight_)).2 ≤ b.getWeight) ∧
      (∀ j, j < (minElement ([Box.mkBox 1, Box.mkBox 0].map Box.weight_)).1 →
        (minElement ([Box.mkBox 1, Box.mkBox 0].map Box.weight_)).2
          < (([Box.mkBox 1, Box.mkBox 0] : List Box).getD j (Box.mkBox 0)).getWeight) ∧
      ∀ (p : Player) (w : ℕ), takeTurn p w [Box.mkBox 1, Box.mkBox 0] =
        match (([Box.mkBox 1, Box.mkBox 0] : List Box).getD
            (minElement ([Box.mkBox 1, Box.mkBox 0].map Box.weight_)).1
            (Box.mkBox 0)).absorbWeight (w : ℚ) with
        | none => none
        | some b2 => some ({ score_ := p.score_ + b2.getScore },
            ([Box.mkBox 1, Box.mkBox 0] : List Box).set
              (minElement ([Box.mkBox 1, Box.mkBox 0].map Box.weight_)).1 b2)) :=
  ⟨by simp, takeTurn_picks_first_min_weight_box _ (by simp)⟩

/-- Helper: a single successful absorption adds the token value to the
weight, for boxes of either kind. -/
theorem absorbWeight_adds_weight (b : Box) (w : ℚ) (b2 : Box)
    (h : b.absorbWeight w = some b2) : b2.getWeight = b.getWeight + w := by
  unfold Box.absorbWeight at h
  split at h
  · rw [Option.some.injEq] at h
    subst h
    rfl
  · split at h
    · exact Option.noConfusion h
    · rw [Option.some.injEq] at h
      subst h
      rfl

/-- C8: for every box of either kind, every initial weight and every
sequence of absorbed values, whenever the sequence of absorptions
completes, the resulting weight is exactly the starting weight plus the
sum of the absorbed values (instantiating `vs` with each prefix of a
longer sequence gives the weight after each k). Arithmetic is the exact
rational model of the `double` arithmetic of the source. -/
theorem absorbSeq_weight_additive (b : Box) (vs : List ℚ) (b2 : Box)
    (h : Box.absorbSeq b vs = some b2) : b2.getWeight = b.getWeight + vs.sum := by
  induction vs generalizing b with
  | nil =>
    unfold Box.absorbSeq at h
    rw [Option.some.injEq] at h
    subst h
    simp [Box.getWeight]
  | cons v vs ih =>
    unfold Box.absorbSeq at h
    split at h
    · exact Option.noConfusion h
    · rename_i b3 hstep
      have h3 := ih b3 h
      have h1 := absorbWeight_adds_weight b v b3 hstep
      rw [h3, h1, List.sum_cons]
      ring

/-- C8 witness: a green box of initial weight 0 absorbing 1 then 2 ends
with weight 0 + (1 + 2) = 3. -/
theorem absorbSeq_weight_additive_w :
    ({ weight_ := 3, score_ := 9/4, absorbed_weights_ := [1, 2],
        type_ := BoxType.GREEN } : Box).getWeight
      = (Box.makeGreenBox 0).getWeight + ([1, 2] : List ℚ).sum :=
  absorbSeq_weight_additive (Box.makeGreenBox 0) [1, 2] _ (by with_unfolding_all decide)

/-- C10: `makeGreenBox` and `makeBlueBox` construct identical boxes whose
kind is GREEN; after `setBoxType`, the kind is BLUE exactly when the weight
at that moment exceeds 0.1, whichever factory made the box (so a weight
above 0.3 is still reassigned to BLUE, the printed warning
notwithstanding); and a box made by `makeBlueBox` with initial weight 0
still has kind GREEN after `setBoxType` and scores with the
accumulating-mean formula (first score is the square of the token). -/
theorem factories_identical_and_kind_from_threshold (w v : ℚ) :
    Box.makeGreenBox w = Box.makeBlueBox w ∧
    (Box.makeGreenBox w).getBoxType = BoxType.GREEN ∧
    (Box.makeBlueBox w).getBoxType = BoxType.GREEN ∧
    ((Box.makeGreenBox w).setBoxType).getBoxType
      = (if 1/10 < w then BoxType.BLUE else BoxType.GREEN) ∧
    ((Box.makeBlueBox w).setBoxType).getBoxType
      = (if 1/10 < w then BoxType.BLUE else BoxType.GREEN) ∧
    (3/10 < w → ((Box.makeBlueBox w).setBoxType).getBoxType = BoxType.BLUE) ∧
    ((Box.makeBlueBox 0).setBoxType).getBoxType = BoxType.GREEN ∧
    (((Box.makeBlueBox 0).setBoxType).absorbWeight v).map Box.getScore
      = some (v ^ 2) := by
  refine ⟨rfl, rfl, rfl, ?_, ?_, ?_, ?_, ?_⟩
  · simp only [Box.makeGreenBox, Box.mkBox, Box.setBoxType, Box.getBoxType]
    split <;> rfl
  · simp only [Box.makeBlueBox, Box.mkBox, Box.setBoxType, Box.getBoxType]
    split <;> rfl
  · intro h3
    simp only [Box.makeBlueBox, Box.mkBox, Box.setBoxType, Box.getBoxType]
    rw [if_pos (by linarith : (1:ℚ)/10 < w)]
  · norm_num [Box.makeBlueBox, Box.mkBox, Box.setBoxType, Box.getBoxType]
  · have hbox : (Box.makeBlueBox 0).setBoxType = Box.mkBox 0 := by
      norm_num [Box.makeBlueBox, Box.mkBox, Box.setBoxType]
    rw [hbox]
    unfold Box.absorbWeight Box.mkBox
    dsimp only
    rw [Option.map_some']
    simp [Box.getScore, Box.greenMean]

/-- C10 witness: the theorem instantiated at weight 2/5 and token 7. -/
theorem factories_identical_and_kind_from_threshold_w :
    Box.makeGreenBox (2/5) = Box.makeBlueBox (2/5) ∧
    (Box.makeGreenBox (2/5)).getBoxType = BoxType.GREEN ∧
    (Box.makeBlueBox (2/5)).getBoxType = BoxType.GREEN ∧
    ((Box.makeGreenBox (2/5)).setBoxType).getBoxType
      = (if 1/10 < (2/5 : ℚ) then BoxType.BLUE else BoxType.GREEN) ∧
    ((Box.makeBlueBox (2/5)).setBoxType).getBoxType
      = (if 1/10 < (2/5 : ℚ) then BoxType.BLUE else BoxType.GREEN) ∧
    ((3:ℚ)/10 < 2/5 → ((Box.makeBlueBox (2/5)).setBoxType).getBoxType = BoxType.BLUE) ∧
    ((Box.makeBlueBox 0).setBoxType).getBoxType = BoxType.GREEN ∧
    (((Box.makeBlueBox 0).setBoxType).absorbWeight 7).map Box.getScore
      = some ((7 : ℚ) ^ 2) :=
  factories_identical_and_kind_from_threshold (2/5) 7
